import Mathlib

set_option maxRecDepth 100000

/-!
Verification development for the IPXTransporter relay engine.

The definitions below are a shallow embedding of the Go sources:
`internal/relay/server.go` (relay loop, admission, broadcast, demo driver,
AddPeer), the relay package's dedup file (`DedupCache` over
`hashicorp/golang-lru/v2`), the peer package (receive stream), and
`internal/stats/stats.go` (`SortPeers`).  Machine integers are modelled as
`Nat`/`Int` with explicit reduction modulo `2 ^ 64` or `2 ^ 32` where the Go
code performs wrapping conversions.
-/

/-! ## SHA-256 (crypto/sha256), the frame fingerprint

The dedup cache keys entries by `sha256.Sum256(data)`.  This is a direct
executable FIPS 180-4 implementation over byte lists (bytes are `Nat < 256`);
it was checked against the standard test vectors for the empty string and
"abc". -/

/-- Reduce a natural number to a 32-bit word. -/
def w32 (n : Nat) : Nat := n % 4294967296

/-- Right rotation of a 32-bit word by `n` bits. -/
def rotr32 (n x : Nat) : Nat := w32 ((x >>> n) ||| (x <<< (32 - n)))

/-- The SHA-256 choice function. -/
def sha256ch (e f g : Nat) : Nat := (e &&& f) ^^^ ((e ^^^ 4294967295) &&& g)

/-- The SHA-256 majority function. -/
def sha256maj (a b c : Nat) : Nat := (a &&& b) ^^^ (a &&& c) ^^^ (b &&& c)

/-- SHA-256 big sigma 0. -/
def bSig0 (x : Nat) : Nat := rotr32 2 x ^^^ rotr32 13 x ^^^ rotr32 22 x

/-- SHA-256 big sigma 1. -/
def bSig1 (x : Nat) : Nat := rotr32 6 x ^^^ rotr32 11 x ^^^ rotr32 25 x

/-- SHA-256 small sigma 0. -/
def sSig0 (x : Nat) : Nat := rotr32 7 x ^^^ rotr32 18 x ^^^ (x >>> 3)

/-- SHA-256 small sigma 1. -/
def sSig1 (x : Nat) : Nat := rotr32 17 x ^^^ rotr32 19 x ^^^ (x >>> 10)

/-- The SHA-256 round constants (first 32 bits of the fractional parts of the
cube roots of the first 64 primes). -/
def sha256K : List Nat :=
  [1116352408, 1899447441, 3049323471, 3921009573, 961987163,
   1508970993, 2453635748, 2870763221, 3624381080, 310598401,
   607225278, 1426881987, 1925078388, 2162078206, 2614888103,
   3248222580, 3835390401, 4022224774, 264347078, 604807628,
   770255983, 1249150122, 1555081692, 1996064986, 2554220882,
   2821834349, 2952996808, 3210313671, 3336571891, 3584528711,
   113926993, 338241895, 666307205, 773529912, 1294757372,
   1396182291, 1695183700, 1986661051, 2177026350, 2456956037,
   2730485921, 2820302411, 3259730800, 3345764771, 3516065817,
   3600352804, 4094571909, 275423344, 430227734, 506948616,
   659060556, 883997877, 958139571, 1322822218, 1537002063,
   1747873779, 1955562222, 2024104815, 2227730452, 2361852424,
   2428436474, 2756734187, 3204031479, 3329325298]

/-- Working state of the SHA-256 compression function (eight 32-bit words). -/
structure Hash8 where
  a : Nat
  b : Nat
  c : Nat
  d : Nat
  e : Nat
  f : Nat
  g : Nat
  h : Nat
deriving DecidableEq

/-- SHA-256 initial hash value. -/
def sha256H0 : Hash8 :=
  ⟨1779033703, 3144134277, 1013904242, 2773480762, 1359893119, 2600822924, 528734635, 1541459225⟩

/-- One SHA-256 compression round, fed the current schedule word and round constant. -/
def sha256Round (s : Hash8) (wk : Nat × Nat) : Hash8 :=
  let t1 := w32 (s.h + bSig1 s.e + sha256ch s.e s.f s.g + wk.2 + wk.1)
  let t2 := w32 (bSig0 s.a + sha256maj s.a s.b s.c)
  ⟨w32 (t1 + t2), s.a, s.b, s.c, w32 (s.d + t1), s.e, s.f, s.g⟩

/-- Big-endian 32-bit words from a byte list (4 bytes per word). -/
def toWords : List Nat → List Nat
  | b0 :: b1 :: b2 :: b3 :: rest => (((b0 * 256 + b1) * 256 + b2) * 256 + b3) :: toWords rest
  | _ => []

/-- One step of the message-schedule extension; the list holds the schedule
so far, newest word first. -/
def extendOnce (rev : List Nat) : List Nat :=
  w32 (sSig1 (rev.getD 1 0) + rev.getD 6 0 + sSig0 (rev.getD 14 0) + rev.getD 15 0) :: rev

/-- Iterated schedule extension. -/
def extendIter : Nat → List Nat → List Nat
  | 0, rev => rev
  | n + 1, rev => extendIter n (extendOnce rev)

/-- The 64-word message schedule of a 16-word block. -/
def schedule (ws : List Nat) : List Nat := (extendIter 48 ws.reverse).reverse

/-- Compress one 64-byte chunk into the running hash value. -/
def processChunk (H : Hash8) (chunk : List Nat) : Hash8 :=
  let st := (List.zip (schedule (toWords chunk)) sha256K).foldl sha256Round H
  ⟨w32 (H.a + st.a), w32 (H.b + st.b), w32 (H.c + st.c), w32 (H.d + st.d),
   w32 (H.e + st.e), w32 (H.f + st.f), w32 (H.g + st.g), w32 (H.h + st.h)⟩

/-- Big-endian 8-byte encoding of a length in bits. -/
def be64 (n : Nat) : List Nat :=
  [n / 2 ^ 56 % 256, n / 2 ^ 48 % 256, n / 2 ^ 40 % 256, n / 2 ^ 32 % 256,
   n / 2 ^ 24 % 256, n / 2 ^ 16 % 256, n / 2 ^ 8 % 256, n % 256]

/-- SHA-256 padding: 0x80, zeros up to 56 mod 64, then the bit length. -/
def padMsg (msg : List Nat) : List Nat :=
  msg ++ [0x80] ++ List.replicate ((119 - msg.length % 64) % 64) 0 ++ be64 (8 * msg.length)

/-- Fuel-indexed chunk splitter (structural, so that the kernel can evaluate it). -/
def chunksAux : Nat → List Nat → List (List Nat)
  | 0, _ => []
  | _, [] => []
  | fuel + 1, l => l.take 64 :: chunksAux fuel (l.drop 64)

/-- Split a padded message into 64-byte chunks. -/
def chunks64 (l : List Nat) : List (List Nat) := chunksAux l.length l

/-- Big-endian bytes of a 32-bit word. -/
def wordBytes (w : Nat) : List Nat := [w / 2 ^ 24 % 256, w / 2 ^ 16 % 256, w / 2 ^ 8 % 256, w % 256]

/-- SHA-256 of a byte string, as a list of 32 bytes. -/
def sha256 (msg : List Nat) : List Nat :=
  let H := (chunks64 (padMsg msg)).foldl processChunk sha256H0
  wordBytes H.a ++ wordBytes H.b ++ wordBytes H.c ++ wordBytes H.d ++
  wordBytes H.e ++ wordBytes H.f ++ wordBytes H.g ++ wordBytes H.h

/-! ## DedupCache (relay package)

`DedupCache` wraps `lru.Cache[string, bool]` from `hashicorp/golang-lru/v2`
(v2.0.7), keyed by `string(sha256.Sum256(data))`.  The library semantics
embedded here: `lru.New` fails iff the size is not positive; `Cache.Contains`
tests membership WITHOUT updating recency; `Cache.Add` inserts the key as
most recent and evicts the least recently used entry when the capacity is
exceeded.  The entry list below is ordered most-recent-first, so `Add` is
cons-then-truncate.  The `ttl` field mirrors `DedupCache.ttl`, which
`IsDuplicate` never reads. -/

structure DedupCache where
  capacity : Nat
  ttl : Int
  entries : List (List Nat)
deriving DecidableEq

/-- NewDedupCache (relay package): `lru.New` errors iff `size ≤ 0`. -/
def NewDedupCache (size ttlSeconds : Int) : Option DedupCache :=
  if size ≤ 0 then none else some ⟨size.toNat, ttlSeconds, []⟩

/-- DedupCache.IsDuplicate: hash the packet, return true on a cache hit
(without touching recency, as `Contains` does), otherwise `Add` the key
(evicting the least recently inserted entry at capacity) and return false.
Returns the updated cache alongside the result. -/
def DedupCache.IsDuplicate (d : DedupCache) (data : List Nat) : Bool × DedupCache :=
  let key := sha256 data
  if key ∈ d.entries then (true, d)
  else (false, { d with entries := (key :: d.entries).take d.capacity })

/-! ## Server state and the relay loop (internal/relay/server.go)

The relay loop in `Server.Start` selects over the capture channel and
`peerRelayChan`.  Per-peer egress queues (`Peer.SendChan`, capacity 1000) are
modelled as bounded lists; the aggregate counters are uint64 values updated
with `atomic.AddUint64`, i.e. addition modulo `2 ^ 64`.  `injectCalls` counts
invocations of `capturer.Inject` (the capture adapter is external; its
success is an input of the step). -/

/-- Modulus of Go's uint64. -/
def U64 : Nat := 18446744073709551616

/-- atomic.AddUint64: wrapping addition on uint64 values. -/
def addU64 (c a : Nat) : Nat := (c + a) % U64

/-- Go conversion `uint64(x)` of a (64-bit) signed integer: reduction modulo
`2 ^ 64`; a negative operand wraps around. -/
def toU64 (i : Int) : Nat := (i % (U64 : Int)).toNat

/-- Capacity of a peer's egress queue (`make(chan []byte, 1000)`). -/
def sendCap : Nat := 1000

/-- One connected peer as seen by the broadcast path: its id and its
egress queue contents (oldest first). -/
structure PeerQ where
  id : String
  sendq : List (List Nat)
deriving DecidableEq

/-- The non-blocking send of `broadcastToPeers`: enqueue unless the peer's
buffer is full, in which case the frame is dropped for that peer only. -/
def enqueuePeer (data : List Nat) (p : PeerQ) : PeerQ :=
  if p.sendq.length < sendCap then { p with sendq := p.sendq ++ [data] } else p

/-- Relay engine state: dedup cache, the four aggregate counters, connected
peers, the number of capture injections performed, and the demo-mode rates
(`NewServer` defaults 15/3/10/5). -/
structure Server where
  dedup : DedupCache
  totalReceived : Nat
  totalForwarded : Nat
  totalDropped : Nat
  totalErrors : Nat
  peers : List PeerQ
  injectCalls : Nat
  demoPacketRate : Int
  demoDropRate : Int
  demoErrorRate : Int
  demoNumPeers : Int
deriving DecidableEq

/-- Server.broadcastToPeers: non-blocking send to every peer's egress queue. -/
def Server.broadcastToPeers (s : Server) (data : List Nat) : Server :=
  { s with peers := s.peers.map (enqueuePeer data) }

/-- The `case data := <-packetChan` arm of the relay loop: count the frame as
received; a dedup hit counts a drop, a miss is broadcast and counted as
forwarded. -/
def Server.captureIngress (s : Server) (data : List Nat) : Server :=
  let s1 := { s with totalReceived := addU64 s.totalReceived 1 }
  let r := s1.dedup.IsDuplicate data
  if r.1 then { s1 with dedup := r.2, totalDropped := addU64 s1.totalDropped 1 }
  else
    let s2 := s1.broadcastToPeers data
    { s2 with dedup := r.2, totalForwarded := addU64 s1.totalForwarded 1 }

/-- The `case data := <-s.peerRelayChan` arm of the relay loop: a dedup hit is
silently dropped; a miss is injected into the capture adapter, and an
injection failure increments `totalErrors`. -/
def Server.peerIngress (s : Server) (data : List Nat) (injectOk : Bool) : Server :=
  let r := s.dedup.IsDuplicate data
  if r.1 then { s with dedup := r.2 }
  else
    let s1 := { s with dedup := r.2, injectCalls := s.injectCalls + 1 }
    if injectOk then s1 else { s1 with totalErrors := addU64 s1.totalErrors 1 }

/-- The uint64 addend of `totalReceived` in one `runDemo` tick:
`uint64(s.demoPacketRate + int(now % int64(s.demoPacketRate/2+1)))`. -/
def demoRecvAdd (s : Server) (now : Nat) : Nat :=
  toU64 (s.demoPacketRate + (now : Int) % (s.demoPacketRate / 2 + 1))

/-- The uint64 addend of `totalForwarded` in one `runDemo` tick:
`uint64(s.demoPacketRate - s.demoDropRate + int(now % int64(s.demoPacketRate/2+1)))`;
note that a negative sum wraps around. -/
def demoFwdAdd (s : Server) (now : Nat) : Nat :=
  toU64 (s.demoPacketRate - s.demoDropRate + (now : Int) % (s.demoPacketRate / 2 + 1))

/-- The uint64 addend of `totalDropped` in one `runDemo` tick:
`uint64(now % int64(s.demoDropRate+1))`. -/
def demoDropAdd (s : Server) (now : Nat) : Nat :=
  toU64 ((now : Int) % (s.demoDropRate + 1))

/-- The counter updates of one `Server.runDemo` ticker iteration.  The four
`atomic.AddUint64`/error lines each call `time.Now().Unix()` separately, so
the tick takes four clock readings `now1 … now4` (for `totalReceived`,
`totalForwarded`, `totalDropped`, and the error check respectively); a tick
straddling a second boundary sees different values.  The mock-peer
reconciliation of the same loop body touches only the peers map, never the
aggregate counters, and is not modelled. -/
def Server.runDemoTick (s : Server) (now1 now2 now3 now4 : Nat) : Server :=
  let s1 := { s with
    totalReceived := addU64 s.totalReceived (demoRecvAdd s now1),
    totalForwarded := addU64 s.totalForwarded (demoFwdAdd s now2),
    totalDropped := addU64 s.totalDropped (demoDropAdd s now3) }
  if 0 < s.demoErrorRate ∧ (now4 : Int) % s.demoErrorRate = 0 then
    { s1 with totalErrors := addU64 s1.totalErrors 1 }
  else s1

/-- Server.UpdateDemoProps: overwrite the demo rates (no validation). -/
def Server.updateDemoProps (s : Server) (packetRate dropRate errorRate numPeers : Int) : Server :=
  { s with demoPacketRate := packetRate, demoDropRate := dropRate,
           demoErrorRate := errorRate, demoNumPeers := numPeers }

/-- The events that drive the engine's counters; a demo tick carries its four
successive clock readings. -/
inductive Event where
  | capture (data : List Nat)
  | peerFrame (data : List Nat) (injectOk : Bool)
  | demoTick (now1 now2 now3 now4 : Nat)
  | setDemoProps (packetRate dropRate errorRate numPeers : Int)

/-- One engine step. -/
def Server.step (s : Server) : Event → Server
  | .capture data => s.captureIngress data
  | .peerFrame data ok => s.peerIngress data ok
  | .demoTick now1 now2 now3 now4 => s.runDemoTick now1 now2 now3 now4
  | .setDemoProps a b c d => s.updateDemoProps a b c d

/-- NewServer: propagates the `NewDedupCache` error; zero counters, no peers,
demo rates 15/3/10/5. -/
def NewServer (size ttlSeconds : Int) : Option Server :=
  (NewDedupCache size ttlSeconds).map fun d => ⟨d, 0, 0, 0, 0, [], 0, 15, 3, 10, 5⟩

/-- The claimed counter inequality. -/
def CounterInv (s : Server) : Prop :=
  s.totalForwarded + s.totalDropped ≤ s.totalReceived

/-! ## Concrete states used by the scenario parts of the theorems -/

/-- The byte string "p1" of the dedup unit test. -/
def pkt1 : List Nat := [112, 49]

/-- The byte string "p2". -/
def pkt2 : List Nat := [112, 50]

/-- The byte string "p3". -/
def pkt3 : List Nat := [112, 51]

/-- A fresh dedup cache of capacity 2 (ttl 30), as built by `NewDedupCache 2 30`. -/
def dedupCap2 : DedupCache := ⟨2, 30, []⟩

/-- The scenario frame `[0x01 0x02]`. -/
def frame12 : List Nat := [1, 2]

/-- A fresh engine with a default-size dedup cache and two connected peers
with empty egress queues. -/
def twoPeerServer : Server :=
  ⟨⟨64000, 30, []⟩, 0, 0, 0, 0, [⟨"peerA", []⟩, ⟨"peerB", []⟩], 0, 15, 3, 10, 5⟩

/-! ## Admission (Server.handleNewConn, peer.NewPeer)

`handleNewConn` checks the two deny-lists by exact string equality, then
counts registered peers whose `ParentID` equals "Local" and rejects when that
count has reached `cfg.MaxChildren`; otherwise it constructs a peer with
`peer.NewPeer` and registers it under its id (a map insert, so an existing
entry with the same id is replaced). -/

/-- A registry entry, reduced to the fields admission reads. -/
structure AdmPeer where
  id : String
  parentID : String
deriving DecidableEq

/-- peer.NewPeer: the `parentID` field is left at its zero value "" — only
the demo driver ever assigns parent ids. -/
def NewPeer (id : String) : AdmPeer := ⟨id, ""⟩

/-- The configuration fields admission reads. -/
structure AdmConfig where
  bannedIDs : List String
  bannedHosts : List String
  maxChildren : Int
deriving DecidableEq

/-- Outcome of `handleNewConn` for one incoming connection. -/
inductive AdmResult where
  | admitted
  | rejectedBannedID
  | rejectedBannedHost
  | rejectedChildLimit
deriving DecidableEq

/-- The local-children count of `handleNewConn`: peers whose reported
parent id is "Local". -/
def localChildren (peers : List AdmPeer) : Nat :=
  peers.countP (fun p => p.parentID == "Local")

/-- Server.handleNewConn: ban checks, child-limit check, then registration. -/
def handleNewConn (cfg : AdmConfig) (peers : List AdmPeer) (peerID host : String) :
    AdmResult × List AdmPeer :=
  if peerID ∈ cfg.bannedIDs then (.rejectedBannedID, peers)
  else if host ∈ cfg.bannedHosts then (.rejectedBannedHost, peers)
  else if (localChildren peers : Int) ≥ cfg.maxChildren then (.rejectedChildLimit, peers)
  else (.admitted, peers.filter (fun p => p.id ≠ peerID) ++ [NewPeer peerID])

/-! ## The peer receive stream (peer.Peer.Run, receiver goroutine)

The receiver repeatedly reads a big-endian uint32 length, terminates on a
length above 2000 (without touching any counter), reads the body, updates
`recvBytes`/`recvPkts` and publishes the frame to the relay channel.  A
failed length read increments `errors` unless it is a clean EOF; a failed
body read only logs.  The stream is modelled as a byte list, fuel-indexed so
the kernel can evaluate it. -/

/-- Per-stream observable state: the peer's receive counters and the frames
published to the relay channel. -/
structure RecvState where
  recvBytes : Nat
  recvPkts : Nat
  errors : Nat
  published : List (List Nat)
deriving DecidableEq

/-- The receiver loop body over the remaining input bytes. -/
def peerRecvLoop : Nat → List Nat → RecvState → RecvState
  | 0, _, st => st
  | fuel + 1, input, st =>
    match input with
    | [] => st
    | b0 :: b1 :: b2 :: b3 :: rest =>
      let len := ((b0 * 256 + b1) * 256 + b2) * 256 + b3
      if len > 2000 then st
      else if rest.length < len then st
      else
        peerRecvLoop fuel (rest.drop len)
          { st with recvBytes := addU64 st.recvBytes len,
                    recvPkts := addU64 st.recvPkts 1,
                    published := st.published ++ [rest.take len] }
    | _ => { st with errors := addU64 st.errors 1 }

/-- Run the receive stream on a whole input (each iteration consumes at least
four bytes, so the input length bounds the iteration count). -/
def peerRecv (input : List Nat) : RecvState :=
  peerRecvLoop input.length input ⟨0, 0, 0, []⟩

/-- Big-endian 4-byte encoding of a uint32, as written by the send stream's
`binary.Write(conn, binary.BigEndian, uint32(...))`. -/
def be32 (n : Nat) : List Nat :=
  [n / 2 ^ 24 % 256, n / 2 ^ 16 % 256, n / 2 ^ 8 % 256, n % 256]

/-! ## Stats sorting (internal/stats/stats.go)

`Stats.SortPeers` runs `sort.Slice` with a comparator selected by
`SortField` and negated by `SortReverse`.  `sort.Slice` guarantees only an
ordering consistent with the comparator, and `CollectStats` gathers the peer
records by iterating a Go map, whose order is arbitrary; the embedding fixes
a concrete comparison sort and the theorems quantify over the input order
via permutations. -/

/-- A peer record, reduced to the fields the comparators read (`ip` stands
for the string `p.IP.String()`). -/
structure PeerStat where
  id : String
  ip : String
  hostname : String
  connectedAt : Nat
  lastSeen : Nat
  numChildren : Int
  sentBytes : Nat
  recvBytes : Nat
  sentPkts : Nat
  recvPkts : Nat
  errors : Nat
deriving DecidableEq

/-- Lexicographic comparison of character lists by code point, the order Go
uses on strings (bytewise UTF-8 comparison coincides with code-point order). -/
def charListLt : List Char → List Char → Bool
  | _, [] => false
  | [], _ :: _ => true
  | a :: as, b :: bs =>
    if a.toNat < b.toNat then true
    else if b.toNat < a.toNat then false
    else charListLt as bs

/-- Go's `<` on strings. -/
def strLt (a b : String) : Bool := charListLt a.toList b.toList

/-- The `switch s.SortField` comparator of `Stats.SortPeers`; unknown fields
fall through to the id comparison. -/
def statLess (field : String) (p1 p2 : PeerStat) : Bool :=
  if field == "id" then strLt p1.id p2.id
  else if field == "ip" then strLt p1.ip p2.ip
  else if field == "hostname" then strLt p1.hostname p2.hostname
  else if field == "connected" then decide (p1.connectedAt < p2.connectedAt)
  else if field == "last_seen" then decide (p1.lastSeen < p2.lastSeen)
  else if field == "children" then decide (p1.numChildren < p2.numChildren)
  else if field == "sent_bytes" then decide (p1.sentBytes < p2.sentBytes)
  else if field == "recv_bytes" then decide (p1.recvBytes < p2.recvBytes)
  else if field == "sent_pkts" then decide (p1.sentPkts < p2.sentPkts)
  else if field == "recv_pkts" then decide (p1.recvPkts < p2.recvPkts)
  else if field == "errors" then decide (p1.errors < p2.errors)
  else strLt p1.id p2.id

/-- The comparator handed to `sort.Slice`: the field comparator, negated when
`SortReverse` is set. -/
def peerLess (field : String) (rev : Bool) (p1 p2 : PeerStat) : Bool :=
  let less := statLess field p1 p2
  if rev then !less else less

/-- Stats.SortPeers: order the records so that an element may precede another
exactly when the comparator does not place the latter strictly first. -/
def SortPeers (field : String) (rev : Bool) (l : List PeerStat) : List PeerStat :=
  l.insertionSort (fun a b => peerLess field rev b a = false)

/-! ## Server.AddPeer address normalization

`AddPeer` appends the default port 8787 via `net.JoinHostPort` when it deems
the port missing, then de-duplicates against `cfg.Peers`.  Addresses are
modelled as character lists; `net.JoinHostPort` wraps any host containing a
colon in square brackets. -/

/-- net.JoinHostPort (Go standard library). -/
def goJoinHostPort (host port : List Char) : List Char :=
  if host.contains ':' then '[' :: (host ++ (']' :: ':' :: port)) else host ++ (':' :: port)

/-- The slice `addr[strings.LastIndex(addr, "]"):]`, defined when ']' occurs
in the address: the last ']' and everything after it. -/
def fromLastBracket (s : List Char) : List Char :=
  ']' :: (s.reverse.takeWhile (fun c => c != ']')).reverse

/-- The default peer port "8787". -/
def defaultPort : List Char := ['8', '7', '8', '7']

/-- The normalization at the top of `Server.AddPeer`. -/
def normalizeAddr (addr : List Char) : List Char :=
  if !(addr.contains ']') then
    if !(addr.contains ':') then goJoinHostPort addr defaultPort else addr
  else
    if !(addr.getLast? == some ':') && !((fromLastBracket addr).contains ':') then
      goJoinHostPort addr defaultPort
    else addr

/-- Server.AddPeer's normalized address, on strings. -/
def AddPeerAddr (addr : String) : String := ⟨normalizeAddr addr.toList⟩

/-- Server.AddPeer's effect on `cfg.Peers`: no change when the normalized
address is already configured, append otherwise. -/
def AddPeerList (peers : List String) (addr : String) : List String :=
  let a := AddPeerAddr addr
  if a ∈ peers then peers else peers ++ [a]

/-! ## Theorems -/

/-- A capacity-1 cache already holding the fingerprint of `pkt1`, used to
witness the eviction clause. -/
def dedupW : DedupCache := ⟨1, 30, [sha256 pkt1]⟩

/-- A cache holding the fingerprint of `pkt1`, used to witness the
hit-leaves-state clause. -/
def dedupHit : DedupCache := ⟨2, 30, [sha256 pkt1]⟩

/-- C3: `DedupCache.IsDuplicate` (the spec's `test_and_insert`) returns true
iff the frame's fingerprint — SHA-256 of the frame bytes — was already
present at the time of the call; otherwise it inserts it and returns false,
evicting the least recently used entry when the store is at capacity;
construction fails exactly for capacity ≤ 0.  With capacity 2, after
insert p1, insert p2, touch p2, insert p3: p1 is no longer a hit and p3 is
a hit. -/
theorem C3_dedup_test_and_insert :
    (∀ (d : DedupCache) (data : List Nat),
        (d.IsDuplicate data).1 = true ↔ sha256 data ∈ d.entries) ∧
    (∀ (d : DedupCache) (data : List Nat),
        sha256 data ∉ d.entries → 0 < d.capacity →
          (d.IsDuplicate data).1 = false ∧
          ((d.IsDuplicate data).2.IsDuplicate data).1 = true) ∧
    (∀ (d : DedupCache) (data : List Nat),
        sha256 data ∉ d.entries → d.entries.length = d.capacity → 0 < d.capacity →
          (d.IsDuplicate data).2.entries = sha256 data :: d.entries.dropLast) ∧
    (∀ size ttlSeconds : Int, NewDedupCache size ttlSeconds = none ↔ size ≤ 0) ∧
    (NewDedupCache 2 30 = some dedupCap2 ∧
     (let r1 := dedupCap2.IsDuplicate pkt1
      let r2 := r1.2.IsDuplicate pkt2
      let rt := r2.2.IsDuplicate pkt2
      let r3 := rt.2.IsDuplicate pkt3
      r1.1 = false ∧ r2.1 = false ∧ rt.1 = true ∧ r3.1 = false ∧
      (r3.2.IsDuplicate pkt1).1 = false ∧ (r3.2.IsDuplicate pkt3).1 = true)) := by
  refine ⟨?_, ?_, ?_, ?_, ?_⟩
  · intro d data
    by_cases h : sha256 data ∈ d.entries <;> simp [DedupCache.IsDuplicate, h]
  · intro d data h hc
    rcases Nat.exists_eq_succ_of_ne_zero (Nat.pos_iff_ne_zero.mp hc) with ⟨n, hn⟩
    constructor
    · simp [DedupCache.IsDuplicate, h]
    · simp [DedupCache.IsDuplicate, h, hn, List.take_succ_cons]
  · intro d data h hlen hc
    simp only [DedupCache.IsDuplicate, if_neg h]
    rcases Nat.exists_eq_succ_of_ne_zero (Nat.pos_iff_ne_zero.mp hc) with ⟨n, hn⟩
    have hl : d.entries.length = n + 1 := by omega
    simp [hn, List.take_succ_cons, List.dropLast_eq_take, hl]
  · intro size ttlSeconds
    by_cases h : size ≤ 0 <;> simp [NewDedupCache, h]
  · exact ⟨by decide, by decide⟩

/-- Witness for C3: the eviction clause applied to a full capacity-1 cache
and a fresh packet. -/
theorem C3_dedup_test_and_insert_witness :
    (sha256 pkt2 ∉ dedupW.entries ∧ dedupW.entries.length = dedupW.capacity ∧
      0 < dedupW.capacity) ∧
    (dedupW.IsDuplicate pkt2).2.entries = sha256 pkt2 :: dedupW.entries.dropLast :=
  ⟨⟨by decide, by decide, by decide⟩,
   C3_dedup_test_and_insert.2.2.1 dedupW pkt2 (by decide) (by decide) (by decide)⟩

/-- C10: a duplicate hit goes through `Cache.Contains`, which does not
refresh recency, and leaves the cache unchanged; only insertions establish
the eviction order.  With capacity 2, after insert p1, insert p2, a hit on
p1, then insert p3, the evicted entry is p1 (the oldest insertion): p1 is no
longer a hit while p2 remains one. -/
theorem C10_hit_does_not_refresh :
    (∀ (d : DedupCache) (data : List Nat),
        sha256 data ∈ d.entries → d.IsDuplicate data = (true, d)) ∧
    (let r1 := dedupCap2.IsDuplicate pkt1
     let r2 := r1.2.IsDuplicate pkt2
     let rt := r2.2.IsDuplicate pkt1
     let r3 := rt.2.IsDuplicate pkt3
     rt.1 = true ∧ rt.2 = r2.2 ∧
     r3.2.entries = [sha256 pkt3, sha256 pkt2] ∧
     (r3.2.IsDuplicate pkt1).1 = false ∧ (r3.2.IsDuplicate pkt2).1 = true) := by
  constructor
  · intro d data h
    simp [DedupCache.IsDuplicate, h]
  · decide

/-- Witness for C10: a hit on a present fingerprint returns the cache
unchanged. -/
theorem C10_hit_does_not_refresh_witness :
    sha256 pkt1 ∈ dedupHit.entries ∧ dedupHit.IsDuplicate pkt1 = (true, dedupHit) :=
  ⟨by decide, C10_hit_does_not_refresh.1 dedupHit pkt1 (by decide)⟩

/-- C4 (code-bug evidence): `IsDuplicate` never reads the `ttl` field nor any
clock — the hit/miss result is invariant under arbitrary changes of `ttl`,
and a fingerprint present in the store is a hit no matter how long ago it was
inserted (the store records no insertion times at all), contradicting the
specified TTL semantics. -/
theorem C4_ttl_never_consulted :
    (∀ (ttlSeconds : Int) (d : DedupCache) (data : List Nat),
        (({ d with ttl := ttlSeconds } : DedupCache).IsDuplicate data).1
          = (d.IsDuplicate data).1) ∧
    ((({ capacity := 10, ttl := 30, entries := [sha256 [0xAA]] } : DedupCache).IsDuplicate
        [0xAA]).1 = true) := by
  constructor
  · intro t d data
    by_cases h : sha256 data ∈ d.entries <;> simp [DedupCache.IsDuplicate, h]
  · decide

/-- The value of `List.getD` on a mapped list below its length. -/
theorem getD_map_of_lt {α β : Type} (f : α → β) (l : List α) (i : Nat) (h : i < l.length)
    (dflt : β) : (l.map f).getD i dflt = f (l.get ⟨i, h⟩) := by
  rw [List.getD_eq_getElem?_getD, List.getElem?_map, List.getElem?_eq_getElem h]
  simp

/-- C1: for every frame on the capture-ingress channel the relay loop
increments `totalReceived`; a dedup hit increments `totalDropped` and does
not broadcast; a miss increments `totalForwarded` and enqueues the frame
once on every peer's egress queue (each queue with room; a full queue drops
for that peer only).  Delivering `[0x01 0x02]` twice to an engine with two
peers yields received 2 / forwarded 1 / dropped 1, with exactly one copy in
each peer's queue.  The wrap hypotheses state that the uint64 counters are
not at their maximum. -/
theorem C1_capture_fanout (s : Server) (data : List Nat)
    (hr : s.totalReceived + 1 < U64) (hf : s.totalForwarded + 1 < U64)
    (hd : s.totalDropped + 1 < U64) :
    ((s.captureIngress data).totalReceived = s.totalReceived + 1) ∧
    (sha256 data ∈ s.dedup.entries →
      (s.captureIngress data).totalDropped = s.totalDropped + 1 ∧
      (s.captureIngress data).totalForwarded = s.totalForwarded ∧
      (s.captureIngress data).peers = s.peers) ∧
    (sha256 data ∉ s.dedup.entries →
      (s.captureIngress data).totalForwarded = s.totalForwarded + 1 ∧
      (s.captureIngress data).totalDropped = s.totalDropped ∧
      ∀ i : Fin s.peers.length, (s.peers.get i).sendq.length < sendCap →
        (s.captureIngress data).peers.getD i.val ⟨"", []⟩ =
          { s.peers.get i with sendq := (s.peers.get i).sendq ++ [data] }) ∧
    (let t1 := twoPeerServer.captureIngress frame12
     let t2 := t1.captureIngress frame12
     t2.totalReceived = 2 ∧ t2.totalForwarded = 1 ∧ t2.totalDropped = 1 ∧
     t2.peers.map PeerQ.sendq = [[frame12], [frame12]]) := by
  have hradd : addU64 s.totalReceived 1 = s.totalReceived + 1 := Nat.mod_eq_of_lt hr
  have hfadd : addU64 s.totalForwarded 1 = s.totalForwarded + 1 := Nat.mod_eq_of_lt hf
  have hdadd : addU64 s.totalDropped 1 = s.totalDropped + 1 := Nat.mod_eq_of_lt hd
  refine ⟨?_, ?_, ?_, by decide⟩
  · by_cases h : sha256 data ∈ s.dedup.entries <;>
      simp [Server.captureIngress, Server.broadcastToPeers, DedupCache.IsDuplicate, h, hradd]
  · intro h
    simp [Server.captureIngress, Server.broadcastToPeers, DedupCache.IsDuplicate, h, hdadd]
  · intro h
    refine ⟨?_, ?_, ?_⟩
    · simp [Server.captureIngress, Server.broadcastToPeers, DedupCache.IsDuplicate, h, hfadd]
    · simp [Server.captureIngress, Server.broadcastToPeers, DedupCache.IsDuplicate, h]
    · intro i hq
      have hpeers : (s.captureIngress data).peers = s.peers.map (enqueuePeer data) := by
        simp [Server.captureIngress, Server.broadcastToPeers, DedupCache.IsDuplicate, h]
      rw [hpeers, getD_map_of_lt (enqueuePeer data) s.peers i.val i.isLt]
      have hq' : s.peers[i.val].sendq.length < sendCap := by simpa using hq
      simp [enqueuePeer, hq']

/-- Witness for C1: the fan-out theorem applied to the two-peer engine and
the scenario frame. -/
theorem C1_capture_fanout_witness :
    (twoPeerServer.totalReceived + 1 < U64 ∧ twoPeerServer.totalForwarded + 1 < U64 ∧
      twoPeerServer.totalDropped + 1 < U64) ∧
    (((twoPeerServer.captureIngress frame12).totalReceived =
        twoPeerServer.totalReceived + 1) ∧
      (sha256 frame12 ∈ twoPeerServer.dedup.entries →
        (twoPeerServer.captureIngress frame12).totalDropped = twoPeerServer.totalDropped + 1 ∧
        (twoPeerServer.captureIngress frame12).totalForwarded = twoPeerServer.totalForwarded ∧
        (twoPeerServer.captureIngress frame12).peers = twoPeerServer.peers) ∧
      (sha256 frame12 ∉ twoPeerServer.dedup.entries →
        (twoPeerServer.captureIngress frame12).totalForwarded =
          twoPeerServer.totalForwarded + 1 ∧
        (twoPeerServer.captureIngress frame12).totalDropped = twoPeerServer.totalDropped ∧
        ∀ i : Fin twoPeerServer.peers.length,
          (twoPeerServer.peers.get i).sendq.length < sendCap →
          (twoPeerServer.captureIngress frame12).peers.getD i.val ⟨"", []⟩ =
            { twoPeerServer.peers.get i with
                sendq := (twoPeerServer.peers.get i).sendq ++ [frame12] }) ∧
      (let t1 := twoPeerServer.captureIngress frame12
       let t2 := t1.captureIngress frame12
       t2.totalReceived = 2 ∧ t2.totalForwarded = 1 ∧ t2.totalDropped = 1 ∧
       t2.peers.map PeerQ.sendq = [[frame12], [frame12]])) :=
  ⟨⟨by decide, by decide, by decide⟩,
   C1_capture_fanout twoPeerServer frame12 (by decide) (by decide) (by decide)⟩

/-- C2: a peer-ingress frame never touches the egress queues (the peer arm
of the relay loop never broadcasts); a frame whose fingerprint is already in
the dedup store leaves the whole state unchanged — in particular it is not
injected — and a new frame is injected exactly once.  When peer A delivers
`[0xAA]` and peer B later echoes the same bytes, the capture adapter sees
exactly one inject call. -/
theorem C2_loop_prevention (s : Server) (data : List Nat) (injectOk : Bool) :
    ((s.peerIngress data injectOk).peers = s.peers) ∧
    (sha256 data ∈ s.dedup.entries → s.peerIngress data injectOk = s) ∧
    (sha256 data ∉ s.dedup.entries →
      (s.peerIngress data injectOk).injectCalls = s.injectCalls + 1) ∧
    (let t1 := twoPeerServer.peerIngress [0xAA] true
     let t2 := t1.peerIngress [0xAA] true
     t1.injectCalls = 1 ∧ t2.injectCalls = 1 ∧
     t2.peers.map PeerQ.sendq = [[], []]) := by
  refine ⟨?_, ?_, ?_, by decide⟩
  · by_cases h : sha256 data ∈ s.dedup.entries <;>
      cases injectOk <;> simp [Server.peerIngress, DedupCache.IsDuplicate, h]
  · intro h
    simp [Server.peerIngress, DedupCache.IsDuplicate, h]
  · intro h
    cases injectOk <;> simp [Server.peerIngress, DedupCache.IsDuplicate, h]

/-- Witness for C2: the loop-prevention theorem applied to the two-peer
engine and the frame `[0xAA]`. -/
theorem C2_loop_prevention_witness :
    ((twoPeerServer.peerIngress [0xAA] true).peers = twoPeerServer.peers) ∧
    (sha256 [0xAA] ∈ twoPeerServer.dedup.entries →
      twoPeerServer.peerIngress [0xAA] true = twoPeerServer) ∧
    (sha256 [0xAA] ∉ twoPeerServer.dedup.entries →
      (twoPeerServer.peerIngress [0xAA] true).injectCalls =
        twoPeerServer.injectCalls + 1) ∧
    (let t1 := twoPeerServer.peerIngress [0xAA] true
     let t2 := t1.peerIngress [0xAA] true
     t1.injectCalls = 1 ∧ t2.injectCalls = 1 ∧
     t2.peers.map PeerQ.sendq = [[], []]) :=
  C2_loop_prevention twoPeerServer [0xAA] true

/-- Configuration of scenario S4: no bans, `max_children = 2`. -/
def noBanCfg : AdmConfig := ⟨[], [], 2⟩

/-- C5 (code-bug evidence): with `max_children = 2` and no bans, three
successive inbound connections are ALL admitted and the registry grows to 3.
The child-limit check counts registry entries whose parent id is "Local",
but `NewPeer` leaves the parent id at its zero value "", so the count is
always zero for real connections and the limit never triggers — the claim
requires the third connection to be rejected. -/
theorem C5_child_limit_not_enforced :
    (handleNewConn noBanCfg [] "9.9.9.1:40001" "9.9.9.1").1 = .admitted ∧
    (let ps1 := (handleNewConn noBanCfg [] "9.9.9.1:40001" "9.9.9.1").2
     let r2 := handleNewConn noBanCfg ps1 "9.9.9.2:40002" "9.9.9.2"
     let r3 := handleNewConn noBanCfg r2.2 "9.9.9.3:40003" "9.9.9.3"
     r2.1 = .admitted ∧ r3.1 = .admitted ∧
     localChildren r3.2 = 0 ∧ r3.2.length = 3) := by
  constructor
  · decide
  · decide

/-- The conditions under which one event neither wraps a uint64 counter nor
runs `runDemo`'s arithmetic on rates outside its intended range (drop rate
between 0 and the packet rate; the packet-rate bound keeps each per-tick
addend below the uint64 modulus). -/
def StepOk (s : Server) : Event → Prop
  | .capture _ => s.totalReceived + 1 < U64 ∧ s.totalForwarded + 1 < U64 ∧
      s.totalDropped + 1 < U64
  | .peerFrame _ _ => s.totalErrors + 1 < U64
  | .demoTick now1 now2 now3 _ => 0 ≤ s.demoDropRate ∧ s.demoDropRate ≤ s.demoPacketRate ∧
      s.demoPacketRate < 2 ^ 62 ∧ s.totalReceived + demoRecvAdd s now1 < U64 ∧
      s.totalForwarded + demoFwdAdd s now2 < U64 ∧
      s.totalDropped + demoDropAdd s now3 < U64 ∧ s.totalErrors + 1 < U64
  | .setDemoProps _ _ _ _ => True

/-- A demo tick whose three counter clock readings fall in the same Unix
second; trivially satisfied by the other events. -/
def SameTick : Event → Prop
  | .demoTick now1 now2 now3 _ => now1 = now2 ∧ now2 = now3
  | _ => True

/-- C6 (amended): over every engine step — capture ingress, peer ingress, a
demo tick whose rates satisfy `0 ≤ dropRate ≤ packetRate`, or a demo-props
update — each aggregate counter is non-decreasing provided no uint64 counter
wraps around on the step; the inequality
`totalForwarded + totalDropped ≤ totalReceived` is additionally preserved
when the step is not a demo tick, or is a demo tick whose three separate
counter clock readings return the same Unix second. -/
theorem C6_counters_monotonic (s : Server) (e : Event)
    (hInv : CounterInv s) (hOk : StepOk s e) :
    (s.totalReceived ≤ (s.step e).totalReceived ∧
     s.totalForwarded ≤ (s.step e).totalForwarded ∧
     s.totalDropped ≤ (s.step e).totalDropped ∧
     s.totalErrors ≤ (s.step e).totalErrors) ∧
    (SameTick e → CounterInv (s.step e)) := by
  unfold CounterInv at hInv ⊢
  cases e with
  | capture data =>
    obtain ⟨h1, h2, h3⟩ := hOk
    by_cases hm : sha256 data ∈ s.dedup.entries <;>
      simp [Server.step, Server.captureIngress, Server.broadcastToPeers,
        DedupCache.IsDuplicate, SameTick, hm, addU64, U64] at * <;>
      omega
  | peerFrame data ok =>
    have h1 : s.totalErrors + 1 < U64 := hOk
    by_cases hm : sha256 data ∈ s.dedup.entries <;> cases ok <;>
      simp [Server.step, Server.peerIngress, DedupCache.IsDuplicate, SameTick, hm,
        addU64, U64] at * <;>
      omega
  | demoTick now1 now2 now3 now4 =>
    obtain ⟨hD0, hDR, hRlt, hrec, hfwd, hdrop, herr⟩ := hOk
    have hU64 : U64 = 18446744073709551616 := rfl
    have hU64' : ((U64 : Nat) : Int) = 18446744073709551616 := rfl
    have hk1a : (0 : Int) ≤ (now1 : Int) % (s.demoPacketRate / 2 + 1) :=
      Int.emod_nonneg _ (by omega)
    have hk1b : (now1 : Int) % (s.demoPacketRate / 2 + 1) < s.demoPacketRate / 2 + 1 :=
      Int.emod_lt_of_pos _ (by omega)
    have hk2a : (0 : Int) ≤ (now2 : Int) % (s.demoPacketRate / 2 + 1) :=
      Int.emod_nonneg _ (by omega)
    have hk2b : (now2 : Int) % (s.demoPacketRate / 2 + 1) < s.demoPacketRate / 2 + 1 :=
      Int.emod_lt_of_pos _ (by omega)
    have hm3a : (0 : Int) ≤ (now3 : Int) % (s.demoDropRate + 1) :=
      Int.emod_nonneg _ (by omega)
    have hm3b : (now3 : Int) % (s.demoDropRate + 1) < s.demoDropRate + 1 :=
      Int.emod_lt_of_pos _ (by omega)
    have e1 : demoRecvAdd s now1 =
        (s.demoPacketRate + (now1 : Int) % (s.demoPacketRate / 2 + 1)).toNat := by
      simp only [demoRecvAdd, toU64, U64]
      omega
    have e2 : demoFwdAdd s now2 =
        (s.demoPacketRate - s.demoDropRate +
          (now2 : Int) % (s.demoPacketRate / 2 + 1)).toNat := by
      simp only [demoFwdAdd, toU64, U64]
      omega
    have e3 : demoDropAdd s now3 = ((now3 : Int) % (s.demoDropRate + 1)).toNat := by
      simp only [demoDropAdd, toU64, U64]
      omega
    rw [e1] at hrec
    rw [e2] at hfwd
    rw [e3] at hdrop
    constructor
    · simp only [Server.step, Server.runDemoTick, addU64, U64]
      rw [e1, e2, e3]
      split <;> dsimp only <;> omega
    · intro hsame
      obtain ⟨h12, h23⟩ := hsame
      subst h12
      subst h23
      simp only [Server.step, Server.runDemoTick, addU64, U64]
      rw [e1, e2, e3]
      split <;> dsimp only <;> omega
  | setDemoProps a b c d =>
    simp [Server.step, Server.updateDemoProps, SameTick]
    omega

/-- Witness for C6: the step theorem applied to the fresh two-peer engine
and a demo tick whose four clock readings all return Unix second 7. -/
theorem C6_counters_monotonic_witness :
    (CounterInv twoPeerServer ∧ StepOk twoPeerServer (Event.demoTick 7 7 7 7)) ∧
    ((twoPeerServer.totalReceived ≤
        (twoPeerServer.step (Event.demoTick 7 7 7 7)).totalReceived ∧
      twoPeerServer.totalForwarded ≤
        (twoPeerServer.step (Event.demoTick 7 7 7 7)).totalForwarded ∧
      twoPeerServer.totalDropped ≤
        (twoPeerServer.step (Event.demoTick 7 7 7 7)).totalDropped ∧
      twoPeerServer.totalErrors ≤
        (twoPeerServer.step (Event.demoTick 7 7 7 7)).totalErrors) ∧
     (SameTick (Event.demoTick 7 7 7 7) →
        CounterInv (twoPeerServer.step (Event.demoTick 7 7 7 7)))) :=
  ⟨⟨by unfold CounterInv; decide,
    by unfold StepOk demoRecvAdd demoFwdAdd demoDropAdd toU64 U64; decide⟩,
   C6_counters_monotonic twoPeerServer (Event.demoTick 7 7 7 7)
     (by unfold CounterInv; decide)
     (by unfold StepOk demoRecvAdd demoFwdAdd demoDropAdd toU64 U64; decide)⟩

/-- The engine state built by `NewServer` for a default-sized cache. -/
def baseServer : Server := ⟨⟨64000, 30, []⟩, 0, 0, 0, 0, [], 0, 15, 3, 10, 5⟩

/-- C6 counterexample, two real traces violating the claimed inequality.
First: at the default rates 15/3, `runDemo` reads `time.Now().Unix()`
separately for each counter, so a tick straddling a second boundary
(received read at second 10, forwarded and dropped reads at second 11)
adds 15 + 10 % 8 = 17 to `totalReceived` but (15 - 3 + 11 % 8) + 11 % 4
= 15 + 3 = 18 to `totalForwarded + totalDropped`.  Second: after
`UpdateDemoProps(15, 20, 2, 5)` — a drop rate above the packet rate, as the
HTTP control surface permits — the first tick adds `uint64(15 - 20 + 0)`,
which wraps to `2^64 - 5`. -/
theorem C6_counters_counterexample :
    NewServer 64000 30 = some baseServer ∧
    ¬ CounterInv (baseServer.step (Event.demoTick 10 11 11 11)) ∧
    ¬ CounterInv ((baseServer.step (Event.setDemoProps 15 20 2 5)).step
        (Event.demoTick 0 0 0 0)) := by
  refine ⟨by decide, ?_, ?_⟩
  · unfold CounterInv
    decide
  · unfold CounterInv
    decide

/-- The wire bytes of scenario S5: a length prefix of 3000 followed by some
payload bytes. -/
def oversizedInput : List Nat := be32 3000 ++ [1, 2, 3]

/-- C7 counterexample: on a length word of 3000 the receive stream terminates
with the peer's `errors` counter still 0 — the oversized-frame branch returns
without incrementing anything — contradicting the claimed increment; no recv
counters are updated and nothing is published. -/
theorem C7_no_error_increment_counterexample :
    (peerRecv oversizedInput).errors = 0 ∧ ¬ (peerRecv oversizedInput).errors = 1 ∧
    (peerRecv oversizedInput).recvBytes = 0 ∧ (peerRecv oversizedInput).recvPkts = 0 ∧
    (peerRecv oversizedInput).published = [] := by decide

/-- C7 (amended): whenever the next length word exceeds `MAX_FRAME = 2000`,
the receive stream terminates immediately: the frame bytes are not consumed,
nothing is published, and no per-peer counter — `errors` included — changes. -/
theorem C7_oversized_closes_link (n : Nat) (rest : List Nat) (st : RecvState) (fuel : Nat)
    (hn : 2000 < n) (hn32 : n < 2 ^ 32) :
    peerRecvLoop (fuel + 1) (be32 n ++ rest) st = st := by
  have hlen : ((n / 2 ^ 24 % 256 * 256 + n / 2 ^ 16 % 256) * 256 + n / 2 ^ 8 % 256) * 256
      + n % 256 = n := by omega
  simp only [be32, List.cons_append, List.nil_append, peerRecvLoop, hlen, gt_iff_lt, hn,
    if_true]

/-- Witness for C7: the oversized-length theorem applied to the scenario's
3000-byte length prefix. -/
theorem C7_oversized_closes_link_witness :
    (2000 < 3000 ∧ 3000 < 2 ^ 32) ∧
    peerRecvLoop 7 (be32 3000 ++ [1, 2, 3]) ⟨0, 0, 0, []⟩ = ⟨0, 0, 0, []⟩ :=
  ⟨⟨by decide, by decide⟩,
   C7_oversized_closes_link 3000 [1, 2, 3] ⟨0, 0, 0, []⟩ 6 (by decide) (by decide)⟩


/-- Characters with equal code points are equal. -/
theorem char_toNat_inj {a b : Char} (h : a.toNat = b.toNat) : a = b := by
  have h2 : a.val = b.val := UInt32.eq_of_val_eq (Fin.ext h)
  exact Char.eq_of_val_eq h2

/-- The lexicographic order is asymmetric. -/
theorem charListLt_asymm : ∀ x y, charListLt x y = true → charListLt y x = false
  | _, [], h => by simp [charListLt] at h
  | [], _ :: _, _ => by simp [charListLt]
  | a :: as, b :: bs, h => by
    simp only [charListLt] at h ⊢
    split_ifs at h ⊢ <;> first | rfl | omega | exact charListLt_asymm as bs h | simp_all

/-- Two lists neither of which precedes the other are equal. -/
theorem charListLt_antisymm : ∀ x y, charListLt x y = false → charListLt y x = false → x = y
  | [], [], _, _ => rfl
  | [], _ :: _, h, _ => by simp [charListLt] at h
  | _ :: _, [], _, h => by simp [charListLt] at h
  | a :: as, b :: bs, h1, h2 => by
    simp only [charListLt] at h1 h2
    split_ifs at h1 h2 <;> first | omega | skip
    have hab : a = b := char_toNat_inj (by omega)
    rw [hab, charListLt_antisymm as bs h1 h2]

/-- The lexicographic order is transitive. -/
theorem charListLt_trans : ∀ x y z, charListLt x y = true → charListLt y z = true →
    charListLt x z = true
  | _, _, [], _, h2 => by simp [charListLt] at h2
  | _, [], _ :: _, h1, _ => by simp [charListLt] at h1
  | [], _ :: _, _ :: _, _, _ => by simp [charListLt]
  | a :: as, b :: bs, c :: cs, h1, h2 => by
    simp only [charListLt] at h1 h2 ⊢
    split_ifs at h1 h2 ⊢ <;>
      first | rfl | omega | exact charListLt_trans as bs cs h1 h2 | simp_all

/-- Transitivity of the complement order. -/
theorem charListLt_notLt_trans (x y z : List Char) (h1 : charListLt y x = false)
    (h2 : charListLt z y = false) : charListLt z x = false := by
  cases hzx : charListLt z x with
  | false => rfl
  | true =>
    by_cases hyz : charListLt y z = true
    · rw [charListLt_trans y z x hyz hzx] at h1
      exact h1
    · rw [charListLt_antisymm z y h2 (Bool.not_eq_true _ ▸ hyz)] at hzx
      rw [hzx] at h1
      exact h1

/-- Distinct lists are comparable. -/
theorem charListLt_total_of_ne (x y : List Char) (h : x ≠ y) :
    charListLt x y = true ∨ charListLt y x = true := by
  by_cases h1 : charListLt x y = true
  · exact Or.inl h1
  · by_cases h2 : charListLt y x = true
    · exact Or.inr h2
    · exact absurd (charListLt_antisymm x y (Bool.not_eq_true _ ▸ h1)
        (Bool.not_eq_true _ ▸ h2)) h

/-- Every branch of the field comparator is either a string comparison or a
numeric comparison under some projection. -/
theorem statLess_shape (f : String) :
    (∃ g : PeerStat → String,
        ∀ a b : PeerStat, statLess f a b = charListLt (g a).toList (g b).toList) ∨
    (∃ g : PeerStat → Nat, ∀ a b : PeerStat, statLess f a b = decide (g a < g b)) ∨
    (∀ a b : PeerStat, statLess f a b = decide (a.numChildren < b.numChildren)) := by
  by_cases h1 : f == "id"
  · exact Or.inl ⟨PeerStat.id, fun a b => by unfold statLess strLt; rw [if_pos h1]⟩
  by_cases h2 : f == "ip"
  · exact Or.inl ⟨PeerStat.ip, fun a b => by
      unfold statLess strLt; rw [if_neg h1, if_pos h2]⟩
  by_cases h3 : f == "hostname"
  · exact Or.inl ⟨PeerStat.hostname, fun a b => by
      unfold statLess strLt; rw [if_neg h1, if_neg h2, if_pos h3]⟩
  by_cases h4 : f == "connected"
  · exact Or.inr (Or.inl ⟨PeerStat.connectedAt, fun a b => by
      unfold statLess strLt; rw [if_neg h1, if_neg h2, if_neg h3, if_pos h4]⟩)
  by_cases h5 : f == "last_seen"
  · exact Or.inr (Or.inl ⟨PeerStat.lastSeen, fun a b => by
      unfold statLess strLt; rw [if_neg h1, if_neg h2, if_neg h3, if_neg h4, if_pos h5]⟩)
  by_cases h6 : f == "children"
  · refine Or.inr (Or.inr (fun a b => ?_))
    unfold statLess strLt
    rw [if_neg h1, if_neg h2, if_neg h3, if_neg h4, if_neg h5, if_pos h6]
  by_cases h7 : f == "sent_bytes"
  · exact Or.inr (Or.inl ⟨PeerStat.sentBytes, fun a b => by
      unfold statLess strLt
      rw [if_neg h1, if_neg h2, if_neg h3, if_neg h4, if_neg h5, if_neg h6, if_pos h7]⟩)
  by_cases h8 : f == "recv_bytes"
  · exact Or.inr (Or.inl ⟨PeerStat.recvBytes, fun a b => by
      unfold statLess strLt
      rw [if_neg h1, if_neg h2, if_neg h3, if_neg h4, if_neg h5, if_neg h6, if_neg h7,
        if_pos h8]⟩)
  by_cases h9 : f == "sent_pkts"
  · exact Or.inr (Or.inl ⟨PeerStat.sentPkts, fun a b => by
      unfold statLess strLt
      rw [if_neg h1, if_neg h2, if_neg h3, if_neg h4, if_neg h5, if_neg h6, if_neg h7,
        if_neg h8, if_pos h9]⟩)
  by_cases h10 : f == "recv_pkts"
  · exact Or.inr (Or.inl ⟨PeerStat.recvPkts, fun a b => by
      unfold statLess strLt
      rw [if_neg h1, if_neg h2, if_neg h3, if_neg h4, if_neg h5, if_neg h6, if_neg h7,
        if_neg h8, if_neg h9, if_pos h10]⟩)
  by_cases h11 : f == "errors"
  · exact Or.inr (Or.inl ⟨PeerStat.errors, fun a b => by
      unfold statLess strLt
      rw [if_neg h1, if_neg h2, if_neg h3, if_neg h4, if_neg h5, if_neg h6, if_neg h7,
        if_neg h8, if_neg h9, if_neg h10, if_pos h11]⟩)
  · exact Or.inl ⟨PeerStat.id, fun a b => by
      unfold statLess strLt
      rw [if_neg h1, if_neg h2, if_neg h3, if_neg h4, if_neg h5, if_neg h6, if_neg h7,
        if_neg h8, if_neg h9, if_neg h10, if_neg h11]⟩

/-- Asymmetry of the field comparator: every branch is a strict order. -/
theorem statLess_asymm (f : String) (a b : PeerStat) :
    statLess f a b = true → statLess f b a = false := by
  rcases statLess_shape f with ⟨g, hg⟩ | ⟨g, hg⟩ | hg
  · rw [hg, hg]; exact charListLt_asymm _ _
  · rw [hg, hg]; simp only [decide_eq_true_eq, decide_eq_false_iff_not]; omega
  · rw [hg, hg]; simp only [decide_eq_true_eq, decide_eq_false_iff_not]; omega

/-- Transitivity of the negated field comparator (the "may precede" order). -/
theorem statLess_le_trans (f : String) (a b c : PeerStat) :
    statLess f b a = false → statLess f c b = false → statLess f c a = false := by
  rcases statLess_shape f with ⟨g, hg⟩ | ⟨g, hg⟩ | hg
  · rw [hg, hg, hg]; exact fun h1 h2 => charListLt_notLt_trans _ _ _ h1 h2
  · rw [hg, hg, hg]; simp only [decide_eq_false_iff_not]; omega
  · rw [hg, hg, hg]; simp only [decide_eq_false_iff_not]; omega

/-- Transitivity of the field comparator. -/
theorem statLess_trans (f : String) (a b c : PeerStat) :
    statLess f a b = true → statLess f b c = true → statLess f a c = true := by
  rcases statLess_shape f with ⟨g, hg⟩ | ⟨g, hg⟩ | hg
  · rw [hg, hg, hg]; exact fun h1 h2 => charListLt_trans _ _ _ h1 h2
  · rw [hg, hg, hg]; simp only [decide_eq_true_eq]; omega
  · rw [hg, hg, hg]; simp only [decide_eq_true_eq]; omega

/-- Inserting into a list ordered by `r` preserves the ordering, provided the
new element is comparable with every list element. -/
theorem pairwise_orderedInsert (r : PeerStat → PeerStat → Prop) [DecidableRel r]
    (htrans : ∀ a b c, r a b → r b c → r a c) (a : PeerStat) :
    ∀ l : List PeerStat, (∀ b ∈ l, r a b ∨ r b a) → l.Pairwise r →
      (List.orderedInsert r a l).Pairwise r
  | [], _, _ => by simp
  | b :: t, hcomp, hs => by
    rcases List.pairwise_cons.mp hs with ⟨hbt, ht⟩
    by_cases hab : r a b
    · simp only [List.orderedInsert, if_pos hab]
      refine List.pairwise_cons.mpr ⟨?_, hs⟩
      intro x hx
      rcases List.mem_cons.mp hx with hxb | hxt
      · exact hxb ▸ hab
      · exact htrans a b x hab (hbt x hxt)
    · simp only [List.orderedInsert, if_neg hab]
      have hba : r b a := (hcomp b (by simp)).resolve_left hab
      refine List.pairwise_cons.mpr ⟨?_, ?_⟩
      · intro x hx
        rcases (List.mem_orderedInsert r).mp hx with hxa | hxt
        · exact hxa ▸ hba
        · exact hbt x hxt
      · exact pairwise_orderedInsert r htrans a t
          (fun c hc => hcomp c (List.mem_cons_of_mem b hc)) ht

/-- Insertion sort orders any list whose elements are pairwise comparable
under `r`; totality of `r` is not required. -/
theorem pairwise_insertionSort (r : PeerStat → PeerStat → Prop) [DecidableRel r]
    (htrans : ∀ a b c, r a b → r b c → r a c) :
    ∀ l : List PeerStat, l.Pairwise (fun a b => r a b ∨ r b a) →
      (List.insertionSort r l).Pairwise r
  | [], _ => by simp
  | a :: t, hpw => by
    rcases List.pairwise_cons.mp hpw with ⟨hat, ht⟩
    simp only [List.insertionSort]
    refine pairwise_orderedInsert r htrans a _ ?_
      (pairwise_insertionSort r htrans t ht)
    intro b hb
    exact hat b ((List.perm_insertionSort r t).mem_iff.mp hb)

/-- Strings with equal character lists are equal. -/
theorem toList_inj_str (s t : String) (h : s.toList = t.toList) : s = t := by
  cases s
  cases t
  exact congrArg String.mk (by simpa using h)

/-- A pairwise bound from a universal one. -/
theorem pairwise_of_total {R : PeerStat → PeerStat → Prop} (h : ∀ a b, R a b) :
    ∀ l : List PeerStat, l.Pairwise R
  | [] => List.Pairwise.nil
  | a :: t => List.pairwise_cons.mpr ⟨fun b _ => h a b, pairwise_of_total h t⟩

/-- The id comparator is the string comparison of the ids. -/
theorem statLess_id (a b : PeerStat) :
    statLess "id" a b = charListLt a.id.toList b.id.toList := rfl

/-- Sorting by peer id is order-independent on lists with pairwise distinct
ids: any two enumerations of the same records sort to the same sequence
(for either sort direction). -/
theorem sortPeers_id_deterministic (rev : Bool) (l₁ l₂ : List PeerStat)
    (hp : l₁.Perm l₂) (hnd : (l₁.map PeerStat.id).Nodup) :
    SortPeers "id" rev l₁ = SortPeers "id" rev l₂ := by
  classical
  have hne₁ : l₁.Pairwise (fun a b => a.id ≠ b.id) := by
    rw [List.Nodup, List.pairwise_map] at hnd
    exact hnd
  have hne₂ : l₂.Pairwise (fun a b => a.id ≠ b.id) :=
    (hp.pairwise_iff (fun h => Ne.symm h)).mp hne₁
  have hslf : rev = false →
      ∀ p q : PeerStat, peerLess "id" rev q p = charListLt q.id.toList p.id.toList := by
    intro hr p q
    subst hr
    simp [peerLess, statLess_id]
  have hslt : rev = true →
      ∀ p q : PeerStat, peerLess "id" rev q p = !charListLt q.id.toList p.id.toList := by
    intro hr p q
    subst hr
    simp [peerLess, statLess_id]
  have htrans : ∀ a b c : PeerStat, peerLess "id" rev b a = false →
      peerLess "id" rev c b = false → peerLess "id" rev c a = false := by
    intro a b c h1 h2
    cases rev
    · rw [hslf rfl] at h1 h2 ⊢
      exact charListLt_notLt_trans _ _ _ h1 h2
    · rw [hslt rfl] at h1 h2 ⊢
      simp only [Bool.not_eq_false'] at h1 h2 ⊢
      exact charListLt_trans _ _ _ h2 h1
  have hcompat : ∀ (l : List PeerStat), l.Pairwise (fun a b => a.id ≠ b.id) →
      l.Pairwise (fun a b =>
        peerLess "id" rev b a = false ∨ peerLess "id" rev a b = false) := by
    intro l hl
    refine hl.imp ?_
    intro a b hne
    cases rev
    · rw [hslf rfl, hslf rfl]
      cases h : charListLt b.id.toList a.id.toList with
      | false => exact Or.inl rfl
      | true => exact Or.inr (charListLt_asymm _ _ h)
    · rw [hslt rfl, hslt rfl]
      simp only [Bool.not_eq_false']
      have hlne : a.id.toList ≠ b.id.toList := fun hc =>
        hne (toList_inj_str a.id b.id hc)
      rcases charListLt_total_of_ne _ _ hlne with h | h
      · exact Or.inr h
      · exact Or.inl h
  have hsort : ∀ (l : List PeerStat), l.Pairwise (fun a b => a.id ≠ b.id) →
      (SortPeers "id" rev l).Pairwise
        (fun a b => peerLess "id" rev b a = false ∧ a.id ≠ b.id) := by
    intro l hl
    have h1 : (SortPeers "id" rev l).Pairwise
        (fun a b => peerLess "id" rev b a = false) := by
      unfold SortPeers
      exact pairwise_insertionSort _ htrans l (hcompat l hl)
    have h2 : (SortPeers "id" rev l).Pairwise (fun a b => a.id ≠ b.id) := by
      unfold SortPeers
      exact ((List.perm_insertionSort _ l).pairwise_iff (fun h => Ne.symm h)).mpr hl
    exact h1.and h2
  have hperm : (SortPeers "id" rev l₁).Perm (SortPeers "id" rev l₂) := by
    unfold SortPeers
    exact ((List.perm_insertionSort _ l₁).trans hp).trans
      (List.perm_insertionSort _ l₂).symm
  haveI : IsAntisymm PeerStat
      (fun a b => peerLess "id" rev b a = false ∧ a.id ≠ b.id) := by
    constructor
    intro a b h1 h2
    rcases h1 with ⟨h1le, h1ne⟩
    rcases h2 with ⟨h2le, _⟩
    cases rev
    · rw [hslf rfl] at h1le h2le
      exact absurd (toList_inj_str _ _ (charListLt_antisymm _ _ h2le h1le)) h1ne
    · rw [hslt rfl] at h1le h2le
      simp only [Bool.not_eq_false'] at h1le h2le
      rw [charListLt_asymm _ _ h1le] at h2le
      exact absurd h2le (by simp)
  exact List.eq_of_perm_of_sorted hperm (hsort l₁ hne₁) (hsort l₂ hne₂)

/-- A peer record with `sentBytes = 5`, id "a". -/
def tieA : PeerStat := ⟨"a", "1.1.1.1", "ha", 0, 0, 0, 5, 0, 0, 0, 0⟩

/-- A distinct peer record that ties with `tieA` on `sentBytes`. -/
def tieB : PeerStat := ⟨"b", "2.2.2.2", "hb", 1, 1, 1, 5, 1, 1, 1, 1⟩

/-- C8 counterexample: two distinct records that tie on the sort key.
`CollectStats` feeds the comparator the peer records in Go-map iteration
order, which is arbitrary; sorting the two enumeration orders of the same
registry by `sent_bytes` yields different sequences, so the order is not
fully determined. -/
theorem C8_sort_not_deterministic :
    [tieA, tieB].Perm [tieB, tieA] ∧
    SortPeers "sent_bytes" false [tieA, tieB] ≠
      SortPeers "sent_bytes" false [tieB, tieA] := by
  constructor
  · exact List.Perm.swap tieB tieA []
  · decide

/-- C8 (amended): an unrecognized sort key falls back to the id comparison;
`sort_reverse` negates the comparator; the sorted output is a permutation of
the registry snapshot ordered by the selected comparator; and the order is
fully determined when sorting by id (registry ids are unique): any two
enumeration orders of the same records yield the same sequence.  For other
keys, records that tie on the key may appear in either order. -/
theorem C8_sort_amended :
    (∀ (field : String) (rev : Bool) (p q : PeerStat),
        field ∉ (["id", "ip", "hostname", "connected", "last_seen", "children",
          "sent_bytes", "recv_bytes", "sent_pkts", "recv_pkts", "errors"] : List String) →
        peerLess field rev p q = peerLess "id" rev p q) ∧
    (∀ (field : String) (p q : PeerStat),
        peerLess field true p q = ! peerLess field false p q) ∧
    (∀ (field : String) (rev : Bool) (l : List PeerStat), (SortPeers field rev l).Perm l) ∧
    (∀ (field : String) (l : List PeerStat),
        (SortPeers field false l).Pairwise (fun a b => peerLess field false b a = false)) ∧
    (∀ (rev : Bool) (l₁ l₂ : List PeerStat),
        l₁.Perm l₂ → (l₁.map PeerStat.id).Nodup →
        SortPeers "id" rev l₁ = SortPeers "id" rev l₂) := by
  refine ⟨?_, ?_, ?_, ?_, sortPeers_id_deterministic⟩
  · intro field rev p q hf
    simp only [List.mem_cons, List.not_mem_nil, or_false, not_or] at hf
    obtain ⟨h1, h2, h3, h4, h5, h6, h7, h8, h9, h10, h11⟩ := hf
    have hb : ∀ s : String, field ≠ s → (field == s) = false := by
      intro s hs
      simpa using hs
    unfold peerLess statLess
    rw [hb _ h1, hb _ h2, hb _ h3, hb _ h4, hb _ h5, hb _ h6, hb _ h7, hb _ h8,
      hb _ h9, hb _ h10, hb _ h11]
    rfl
  · intro field p q
    simp [peerLess]
  · intro field rev l
    unfold SortPeers
    exact List.perm_insertionSort _ l
  · intro field l
    unfold SortPeers
    refine pairwise_insertionSort _ ?_ l ?_
    · intro a b c h1 h2
      have hpl : ∀ p q : PeerStat, peerLess field false p q = statLess field p q :=
        fun p q => rfl
      rw [hpl] at h1 h2 ⊢
      exact statLess_le_trans field a b c h1 h2
    · refine pairwise_of_total ?_ l
      intro a b
      have hpl : ∀ p q : PeerStat, peerLess field false p q = statLess field p q :=
        fun p q => rfl
      rw [hpl, hpl]
      cases h : statLess field b a with
      | false => exact Or.inl rfl
      | true => exact Or.inr (statLess_asymm field b a h)

/-- Witness for C8: the fallback clause at the unrecognized key "bogus" and
the id-determinism clause at the two enumeration orders of the tied records. -/
theorem C8_sort_amended_witness :
    ("bogus" ∉ (["id", "ip", "hostname", "connected", "last_seen", "children",
        "sent_bytes", "recv_bytes", "sent_pkts", "recv_pkts", "errors"] : List String) ∧
      peerLess "bogus" false tieA tieB = peerLess "id" false tieA tieB) ∧
    ([tieA, tieB].Perm [tieB, tieA] ∧ ([tieA, tieB].map PeerStat.id).Nodup ∧
      SortPeers "id" false [tieA, tieB] = SortPeers "id" false [tieB, tieA]) :=
  ⟨⟨by decide, C8_sort_amended.1 "bogus" false tieA tieB (by decide)⟩,
   ⟨List.Perm.swap tieB tieA [], by decide,
    C8_sort_amended.2.2.2.2 false [tieA, tieB] [tieB, tieA]
      (List.Perm.swap tieB tieA []) (by decide)⟩⟩

/-- C9 counterexample: for a bracketed IPv6 literal without port, `AddPeer`
does not produce the claimed address — `net.JoinHostPort` sees a host that
already contains colons and wraps it in a second pair of brackets. -/
theorem C9_ipv6_counterexample :
    AddPeerAddr "[2001:db8::1]" ≠ "[2001:db8::1]:8787" := by decide

/-- C9 (amended): `AddPeer` appends the default port 8787 to a bare IPv4
host; a bracketed IPv6 literal without port also gets the port appended, but
through `net.JoinHostPort`, which re-wraps the already-bracketed host,
producing `[[2001:db8::1]]:8787`; an address that already has a port is left
alone; and the normalized address is de-duplicated against the configured
peer list. -/
theorem C9_add_peer_amended :
    AddPeerAddr "10.0.0.1" = "10.0.0.1:8787" ∧
    AddPeerAddr "[2001:db8::1]" = "[[2001:db8::1]]:8787" ∧
    AddPeerAddr "10.0.0.1:9000" = "10.0.0.1:9000" ∧
    (∀ (peers : List String) (addr : String),
        AddPeerAddr addr ∈ peers → AddPeerList peers addr = peers) ∧
    (∀ (peers : List String) (addr : String),
        AddPeerAddr addr ∉ peers → AddPeerList peers addr = peers ++ [AddPeerAddr addr]) := by
  refine ⟨by decide, by decide, by decide, ?_, ?_⟩
  · intro peers addr h
    simp [AddPeerList, h]
  · intro peers addr h
    simp [AddPeerList, h]

/-- Witness for C9: adding an address whose normalization is already
configured leaves the peer list unchanged. -/
theorem C9_add_peer_amended_witness :
    AddPeerAddr "10.0.0.1" ∈ ["10.0.0.1:8787"] ∧
    AddPeerList ["10.0.0.1:8787"] "10.0.0.1" = ["10.0.0.1:8787"] :=
  ⟨by decide, C9_add_peer_amended.2.2.2.1 ["10.0.0.1:8787"] "10.0.0.1" (by decide)⟩
